import Mathlib

/-!
Verification of the uncoverlearning backend against its specification.

The embedding below is a shallow model of the Python source under
`backend/src`.  Pure data flow is translated into Lean functions; the
in-process mutable dictionaries (`chunked_uploads`, conversation memory)
become explicit state threaded through the handlers; raised
`HTTPException`s become `Except` errors carrying the status code and
detail string; external collaborators (blob store, Supabase tables,
embedding and generation models) are opaque parameters, and side effects
on them are recorded as an explicit event trace.
-/

namespace Uncover

/-! ## Association lists

Python `dict`s keyed by upload id / chunk index are modelled as
association lists with insertion-order semantics: overwriting a key keeps
its original position, exactly as a CPython dict does. -/

def alistGet {α β : Type} [DecidableEq α] : List (α × β) → α → Option β
  | [], _ => none
  | (k, v) :: rest, key => if k = key then some v else alistGet rest key

def alistPut {α β : Type} [DecidableEq α] : List (α × β) → α → β → List (α × β)
  | [], key, val => [(key, val)]
  | (k, v) :: rest, key, val =>
    if k = key then (key, val) :: rest else (k, v) :: alistPut rest key val

def alistRemove {α β : Type} [DecidableEq α] : List (α × β) → α → List (α × β)
  | [], _ => []
  | (k, v) :: rest, key =>
    if k = key then alistRemove rest key else (k, v) :: alistRemove rest key

theorem alistGet_alistPut_same {α β : Type} [DecidableEq α]
    (d : List (α × β)) (k : α) (v : β) : alistGet (alistPut d k v) k = some v := by
  induction d with
  | nil => simp [alistPut, alistGet]
  | cons p rest ih =>
    by_cases h : p.1 = k
    · simp [alistPut, alistGet, h]
    · simp [alistPut, alistGet, h, ih]

theorem alistGet_alistPut_other {α β : Type} [DecidableEq α]
    (d : List (α × β)) (k k' : α) (v : β) (h : k ≠ k') :
    alistGet (alistPut d k v) k' = alistGet d k' := by
  induction d with
  | nil => simp [alistPut, alistGet, h]
  | cons p rest ih =>
    by_cases hp : p.1 = k
    · simp [alistPut, alistGet, hp, h]
    · simp only [alistPut, hp, if_false]
      by_cases hp' : p.1 = k'
      · simp [alistGet, hp']
      · simp [alistGet, hp', ih]

/-! ## Upload session manager (`api/routes/document_upload.py`)

Bytes are modelled as lists of naturals.  The chunk scratch files written
under the session's temp directory are keyed one-to-one by chunk index,
so they are modelled together with the `chunks` path dictionary as a map
from index to the chunk's bytes.  Wall-clock time is an integer
parameter. -/

abbrev Bytes := List Nat

structure HErr where
  status : Nat
  detail : String
deriving Repr, DecidableEq

structure UploadSession where
  file_name : String
  mime_type : String
  total_chunks : Int
  total_size : Int
  chunks_received : Nat
  chunks : List (Int × Bytes)
  expires_at : Int
  is_complete : Bool
  created_at : Int
deriving Repr, DecidableEq

abbrev Uploads := List (String × UploadSession)

structure UploadInitRequest where
  file_name : String
  total_chunks : Int
  total_size : Int
  mime_type : String
deriving Repr, DecidableEq

structure ChunkUploadResponse where
  upload_id : String
  chunks_received : Nat
  total_chunks : Int
  is_complete : Bool
deriving Repr, DecidableEq

/-- `cleanup_expired_uploads`: drops every session whose `expires_at` is in
the past, releasing its scratch storage.  Run by the background timer
every 15 minutes and at the start of each `initiate_chunked_upload`. -/
def cleanup_expired_uploads (now : Int) (store : Uploads) : Uploads :=
  store.filter (fun kv => !decide (kv.2.expires_at < now))

/-- The session record `initiate_chunked_upload` stores: 1-hour expiry,
no chunks received, empty chunk map, not complete. -/
def freshSession (req : UploadInitRequest) (now : Int) : UploadSession :=
  { file_name := req.file_name
    mime_type := req.mime_type
    total_chunks := req.total_chunks
    total_size := req.total_size
    chunks_received := 0
    chunks := []
    expires_at := now + 3600
    is_complete := false
    created_at := now }

/-- `initiate_chunked_upload`: cleans up expired sessions, validates the
mime type (the only validation performed), then registers a fresh
session under a fresh `upload_id`. -/
def initiate_chunked_upload (now : Int) (upload_id : String)
    (req : UploadInitRequest) (store : Uploads) : Uploads × Except HErr String :=
  let store1 := cleanup_expired_uploads now store
  if req.mime_type ≠ "application/pdf" then
    (store1, .error ⟨400, "Only PDF files are allowed"⟩)
  else
    (alistPut store1 upload_id (freshSession req now), .ok upload_id)

/-- `upload_chunk`: 404 when the id is not in the dictionary, 400 for an
out-of-range index or an already finalized session; otherwise writes the
chunk (overwriting the per-index scratch file), increments
`chunks_received` unconditionally, and reports completeness as
`chunks_received == total_chunks`. -/
def upload_chunk (store : Uploads) (upload_id : String) (chunk_index : Int)
    (chunk_data : Bytes) : Uploads × Except HErr ChunkUploadResponse :=
  match alistGet store upload_id with
  | none => (store, .error ⟨404, "Upload session not found or expired"⟩)
  | some s =>
    if chunk_index < 0 ∨ s.total_chunks ≤ chunk_index then
      (store, .error ⟨400, "Invalid chunk index"⟩)
    else if s.is_complete then
      (store, .error ⟨400, "Upload already finalized"⟩)
    else
      let s1 := { s with chunks := alistPut s.chunks chunk_index chunk_data
                         chunks_received := s.chunks_received + 1 }
      (alistPut store upload_id s1,
       .ok { upload_id := upload_id
             chunks_received := s1.chunks_received
             total_chunks := s.total_chunks
             is_complete := decide ((s1.chunks_received : Int) = s.total_chunks) })

/-- The chunk-gathering loop of `finalize_chunked_upload`: reads
`chunks[i]` for `i in range(total_chunks)`; a missing index raises
`KeyError` (modelled as `none`), caught by the handler's `except` as a
500. -/
def gatherParts (s : UploadSession) : List Nat → Option (List Bytes)
  | [] => some []
  | i :: rest =>
    match alistGet s.chunks (Int.ofNat i), gatherParts s rest with
    | some b, some bs => some (b :: bs)
    | _, _ => none

/-- The assembled file: concatenation of `chunks[0] .. chunks[N-1]` in
index order. -/
def assembleChunks (s : UploadSession) : Option Bytes :=
  (gatherParts s (List.range s.total_chunks.toNat)).map List.flatten

/-- `finalize_chunked_upload`: 404 when the id is unknown, 400 when
`chunks_received != total_chunks`; otherwise marks the session complete
and assembles the file in index order.  On success the session is
deleted and the assembled bytes are handed to `process_document`; a
`KeyError` during assembly surfaces as a 500 with the mutated session
still stored. -/
def finalize_chunked_upload (store : Uploads) (upload_id : String) :
    Uploads × Except HErr Bytes :=
  match alistGet store upload_id with
  | none => (store, .error ⟨404, "Upload session not found or expired"⟩)
  | some s =>
    if ¬ ((s.chunks_received : Int) = s.total_chunks) then
      (store, .error ⟨400, "Not all chunks have been uploaded"⟩)
    else
      let s1 := { s with is_complete := true }
      match assembleChunks s1 with
      | some bytes => (alistRemove store upload_id, .ok bytes)
      | none => (alistPut store upload_id s1, .error ⟨500, "Error finalizing upload"⟩)

/-- Sequential application of `upload_chunk` calls; `none` when any call
returns an error. -/
def runUploads : Uploads → String → List (Int × Bytes) → Option Uploads
  | store, _, [] => some store
  | store, uid, (i, b) :: rest =>
    match upload_chunk store uid i b with
    | (store1, .ok _) => runUploads store1 uid rest
    | (_, .error _) => none

/-! ## PDF text extraction
(`infrastructure/document_processing/pdf_processor.py`)

A page carries its library-native text layer (`page.get_text()`, equal to
the LangChain loader's `page_content` for the same page) and the outcome
of running OCR on its rasterization: `some t` when pytesseract returns
`t`, `none` when the OCR attempt raises.  The token splitter is an
external LangChain component, modelled as an opaque function on the page
texts. -/

structure PdfPage where
  native : String
  ocrResult : Option String
deriving Repr, DecidableEq

/-- Python's `str.strip()`: whitespace removed from both ends. -/
def stripStr (s : String) : String :=
  ⟨((s.data.dropWhile Char.isWhitespace).reverse.dropWhile Char.isWhitespace).reverse⟩

/-- The `text_threshold` default of `LangChainDocumentProcessor.__init__`,
the value used by the upload route (which overrides only `chunk_size`). -/
def defaultTextThreshold : Nat := 20

/-- `_extract_text_with_ocr`: returns the extracted text together with the
number of OCR invocations performed (0 or 1).  When the stripped native
text is below the threshold, OCR runs once; an exception inside the `try`
is caught and yields the empty string. -/
def extract_text_with_ocr (text_threshold : Nat) (p : PdfPage) : String × Nat :=
  let text := p.native
  if (stripStr text).length < text_threshold then
    match p.ocrResult with
    | some t => (t, 1)
    | none => ("", 1)
  else (text, 0)

/-- The per-page loop of `process_pdf`: when the loader text is below the
density threshold and fitz pages are available for OCR, run
`_extract_text_with_ocr` and substitute its output only when its strip is
non-empty.  Returns the page text finally used together with the OCR
invocation count. -/
def processPage (text_threshold : Nat) (fitzAvailable : Bool) (p : PdfPage) : String × Nat :=
  if (stripStr p.native).length < text_threshold ∧ fitzAvailable = true then
    let r := extract_text_with_ocr text_threshold p
    (if stripStr r.1 ≠ "" then r.1 else p.native, r.2)
  else (p.native, 0)

/-- `process_pdf`: a loader failure or an empty page list yields `[]`
(no exception).  Fitz pages for OCR are loaded only when some page is
below the density threshold and opening the PDF with fitz succeeds
(`fitzOk`).  The processed page texts are then handed to the token
splitter. -/
def process_pdf (text_threshold : Nat) (split : List String → List String)
    (fitzOk : Bool) (load : Option (List PdfPage)) : List String :=
  match load with
  | none => []
  | some pages =>
    if pages.isEmpty then []
    else
      let fitzAvailable :=
        fitzOk && pages.any (fun p => decide ((stripStr p.native).length < text_threshold))
      split (pages.map (fun p => (processPage text_threshold fitzAvailable p).1))

/-! ## Ingestion pipeline (`process_document` and
`infrastructure/vector_store/supabase_store.py`)

Side effects on the external stores are recorded as an event trace:
the GCP blob upload, the `files` metadata row insert, and each `chunks`
row insert.  Embedding vectors are opaque values produced by an opaque
embedding function.  The collaborators' success cases are modelled;
their own failures raise and abort the pipeline in the source. -/

abbrev Vec := List Int

structure ChunkRow where
  id : String
  fileId : String
  position : Nat
  originalName : String
  content : String
  downloadUrl : String
  embedding : Vec
deriving Repr, DecidableEq

inductive StoreEvent where
  | blobUpload (filename : String) (size : Nat)
  | fileMetadata (title : String) (link : String)
  | chunkInsert (row : ChunkRow)
deriving Repr, DecidableEq

structure DocMeta where
  id : Option String
  fileId : Option String
  position : Option Nat
  originalName : Option String
  downloadUrl : Option String
deriving Repr, DecidableEq

structure Doc where
  page_content : String
  metadata : DocMeta
deriving Repr, DecidableEq

/-- The insert loop of `LangChainVectorStore.add_documents`: a document
missing one of the required metadata keys is skipped (`continue`);
otherwise a chunk row is built (id from metadata, else a fresh uuid) and
inserted, and its id collected. -/
def insertRows : List (Doc × Vec) → List StoreEvent × List String
  | [] => ([], [])
  | (d, e) :: rest =>
    match d.metadata.fileId, d.metadata.position, d.metadata.originalName,
        d.metadata.downloadUrl with
    | some fid, some pos, some onm, some url =>
      let row : ChunkRow :=
        { id := d.metadata.id.getD "generated-uuid"
          fileId := fid
          position := pos
          originalName := onm
          content := d.page_content
          downloadUrl := url
          embedding := e }
      let r := insertRows rest
      (.chunkInsert row :: r.1, row.id :: r.2)
    | _, _, _, _ => insertRows rest

/-- `add_documents` with a pre-computed `embeddings_list`: a length
mismatch between documents and embeddings raises `ValueError` before any
insert; otherwise the rows are inserted one by one. -/
def add_documents (docs : List Doc) (embs : List Vec) :
    List StoreEvent × Except String (List String) :=
  if docs.length = embs.length then
    let r := insertRows (docs.zip embs)
    (r.1, .ok r.2)
  else ([], .error "Mismatch between documents and provided embeddings count.")

/-- The `metadata_list` comprehension of `process_document` step 5
combined with the `doc.metadata = meta` stamping loop: document `i`
receives id `{file_id}_chunk_{i}`, the file id, its 0-based position, the
original name and the GCP url. -/
def buildDocs (file_id original_name gcp_url : String) : Nat → List String → List Doc
  | _, [] => []
  | i, t :: rest =>
    { page_content := t
      metadata :=
        { id := some (file_id ++ "_chunk_" ++ toString i)
          fileId := some file_id
          position := some i
          originalName := some original_name
          downloadUrl := some gcp_url } } :: buildDocs file_id original_name gcp_url (i + 1) rest

structure IngestResult where
  file_url : String
  file_id : String
  total_chunks : Nat
deriving Repr, DecidableEq

/-- `process_document`: step 1 extracts and chunks the PDF, step 2
embeds every chunk, step 3 uploads the original bytes to the blob store,
step 4 inserts the file metadata row (obtaining `file_id`), step 5 stamps
the chunk metadata and adds the chunks to the vector store.  `gcp_url`
and `file_id` are the values returned by the opaque collaborators. -/
def process_document (text_threshold : Nat) (split : List String → List String)
    (fitzOk : Bool) (load : Option (List PdfPage)) (embed : String → Vec)
    (gcp_url file_id : String) (file_content : Bytes)
    (original_name filename : String) :
    List StoreEvent × Except HErr IngestResult :=
  let documents := process_pdf text_threshold split fitzOk load
  let embeddings := documents.map embed
  let ev1 : StoreEvent := .blobUpload filename file_content.length
  let ev2 : StoreEvent := .fileMetadata original_name gcp_url
  let docs := buildDocs file_id original_name gcp_url 0 documents
  if documents.length = docs.length then
    match add_documents docs embeddings with
    | (evs, .ok _) =>
      ([ev1, ev2] ++ evs,
       .ok { file_url := gcp_url, file_id := file_id, total_chunks := documents.length })
    | (evs, .error msg) =>
      ([ev1, ev2] ++ evs, .error ⟨500, "Failed to add documents to vector store: " ++ msg⟩)
  else
    ([ev1, ev2], .error ⟨500, "Mismatch between number of documents and metadata entries prepared."⟩)

/-- The chunk-insert events a successful ingest of the given chunk texts
must produce, in order: position `i`, id `{file_id}_chunk_{i}`, the
chunk's own embedding and the blob url. -/
def expectedChunkEvents (file_id original_name gcp_url : String) (embed : String → Vec) :
    Nat → List String → List StoreEvent
  | _, [] => []
  | i, t :: rest =>
    .chunkInsert
      { id := file_id ++ "_chunk_" ++ toString i
        fileId := file_id
        position := i
        originalName := original_name
        content := t
        downloadUrl := gcp_url
        embedding := embed t } :: expectedChunkEvents file_id original_name gcp_url embed (i + 1) rest

def expectedChunkIds (file_id : String) : Nat → List String → List String
  | _, [] => []
  | i, _ :: rest => (file_id ++ "_chunk_" ++ toString i) :: expectedChunkIds file_id (i + 1) rest

def countChunkInserts : List StoreEvent → Nat
  | [] => 0
  | .chunkInsert _ :: rest => countChunkInserts rest + 1
  | _ :: rest => countChunkInserts rest

/-! ## Conversational query orchestration
(`infrastructure/rag/query_processor.py` and
`api/routes/document_query.py`)

The LLM calls (question generator, answer generation), the embedding
function and the hybrid-search RPC are opaque functions collected in a
`RagEnv`.  The chain state is the current prompt mode plus the
`ConversationBufferMemory` message list. -/

inductive PromptMode where
  | student
  | professor
deriving Repr, DecidableEq

inductive Msg where
  | human (content : String)
  | ai (content : String)
deriving Repr, DecidableEq

structure RagState where
  mode : PromptMode
  memory : List Msg
deriving Repr, DecidableEq

/-- `set_mode`: switches the prompt mode, recreates the chain for the new
prompt, and clears the conversation memory. -/
def set_mode (m : PromptMode) (_s : RagState) : RagState :=
  { mode := m, memory := [] }

structure SourceRow where
  id : String
  content : String
deriving Repr, DecidableEq

structure RagEnv where
  embed_query : String → Vec
  hybrid : String → Vec → String → List SourceRow
  question_generator : String → List Msg → String
  combine_docs : PromptMode → String → List Msg → List SourceRow → String

structure QueryOutput where
  answer : String
  source_documents : List SourceRow
deriving Repr, DecidableEq

def notFoundAnswer : String :=
  "Could not find relevant information in the specified document."

/-- `LangChainRAGChain.query`: optionally switches to a temporary mode
(reverted in the `finally` block on every exit path), embeds the incoming
question and performs the hybrid search with it, short-circuits when no
sources are found, rewrites the question into a standalone question when
history exists, generates the answer from the mode's prompt with the
(possibly rewritten) question, and saves the original question with the
final answer into memory. -/
def query (env : RagEnv) (s : RagState) (question : String) (file_title : String)
    (modeArg : Option PromptMode) : RagState × QueryOutput :=
  let pre :=
    match modeArg with
    | some m =>
      if m = s.mode then (s, (none : Option PromptMode)) else (set_mode m s, some s.mode)
    | none => (s, none)
  let s1 := pre.1
  let original_mode := pre.2
  let finishWith := fun (s2 : RagState) (out : QueryOutput) =>
    match original_mode with
    | some m => (set_mode m s2, out)
    | none => (s2, out)
  let query_embedding := env.embed_query question
  let search_results := env.hybrid question query_embedding file_title
  if search_results.isEmpty then
    finishWith s1 { answer := notFoundAnswer, source_documents := [] }
  else
    let chat_history := s1.memory
    let new_question :=
      if chat_history.isEmpty then question else env.question_generator question chat_history
    let final_answer := env.combine_docs s1.mode new_question chat_history search_results
    let s2 := { s1 with memory := s1.memory ++ [.human question, .ai final_answer] }
    finishWith s2 { answer := final_answer, source_documents := search_results }

structure HistoryEntry where
  role : String
  content : String
deriving Repr, DecidableEq

/-- The `GET /chat-history` endpoint: maps the memory messages to
role/content records, `ai` becoming `assistant` and everything else
`user`. -/
def getHistory (s : RagState) : List HistoryEntry :=
  s.memory.map fun m =>
    match m with
    | .human c => { role := "user", content := c }
    | .ai c => { role := "assistant", content := c }

/-! ## Hybrid search fusion

`LangChainVectorStore.hybrid_search` delegates the entire ranking to the
Supabase RPC `hybrid_search`, a server-side SQL procedure that is not
part of this repository.  The fusion is therefore modelled from the
specification. -/

/-- Rank of the first occurrence of `x` in a ranked list, 1-based;
`none` when absent. -/
def rankOf : List String → String → Option Nat
  | [], _ => none
  | y :: rest, x => if y = x then some 1 else (rankOf rest x).map (· + 1)

/-- Modelled from the spec: the `hybrid_search` SQL procedure is missing
from the source tree; per the spec, a result appearing at 1-based rank
`r` in a ranked list contributes `weight / (rrfK + r)`, and absence from
the list contributes zero. -/
def rrfContribution (weight : ℚ) (rrfK : Nat) (ranked : List String) (x : String) : ℚ :=
  match rankOf ranked x with
  | some r => weight / (rrfK + r)
  | none => 0

/-- Modelled from the spec: a result's total score is the sum of its RRF
contributions across the lexical and the semantic ranked lists. -/
def rrfScore (full_text_weight semantic_weight : ℚ) (rrfK : Nat)
    (lex sem : List String) (x : String) : ℚ :=
  rrfContribution full_text_weight rrfK lex x +
    rrfContribution semantic_weight rrfK sem x

/-- Stable insertion into a list sorted by descending score: the new
element passes over only strictly greater scores, so among equal scores
the element originally earlier stays first. -/
def insertDesc (score : String → ℚ) (x : String) : List String → List String
  | [] => [x]
  | y :: rest => if score x < score y then y :: insertDesc score x rest else x :: y :: rest

/-- Stable sort by descending score (insertion sort). -/
def sortDesc (score : String → ℚ) : List String → List String
  | [] => []
  | x :: rest => insertDesc score x (sortDesc score rest)

def dedupKeepFirstAux (seen : List String) : List String → List String
  | [] => []
  | x :: rest =>
    if x ∈ seen then dedupKeepFirstAux seen rest
    else x :: dedupKeepFirstAux (x :: seen) rest

/-- Candidate universe in stable original order: first occurrences of the
lexical results followed by the new semantic results. -/
def dedupKeepFirst (l : List String) : List String := dedupKeepFirstAux [] l

/-- Modelled from the spec: fuse the two ranked lists by total RRF score,
descending, ties broken by stable original order, returning at most
`match_count` results. -/
def hybrid_fuse (full_text_weight semantic_weight : ℚ) (rrfK : Nat)
    (match_count : Nat) (lex sem : List String) : List String :=
  (sortDesc (rrfScore full_text_weight semantic_weight rrfK lex sem)
      (dedupKeepFirst (lex ++ sem))).take match_count

/-! ## Concrete environments used by closed statements -/

/-- A conversation with one prior turn about transformers. -/
def c2Memory : List Msg :=
  [.human "Tell me about transformers", .ai "Transformers are attention-based models."]

/-- An environment whose retrieval distinguishes the literal pronoun
query from the standalone rewrite the question generator produces. -/
def c2Env : RagEnv :=
  { embed_query := fun q => [(q.length : Int)]
    hybrid := fun q _ _ =>
      if q = "What is a transformer?" then
        [{ id := "standalone-hit", content := "transformer chunk" }]
      else [{ id := "pronoun-hit", content := "pronoun chunk" }]
    question_generator := fun _ _ => "What is a transformer?"
    combine_docs := fun _ q _ _ => q }

/-- A minimal environment that always retrieves one source and echoes
the question it generates from. -/
def plainEnv : RagEnv :=
  { embed_query := fun _ => []
    hybrid := fun _ _ _ => [{ id := "r1", content := "text" }]
    question_generator := fun q _ => q
    combine_docs := fun _ q _ _ => q }

/-! ## Helper lemmas -/

theorem alistGet_eq_none_of_not_mem {α β : Type} [DecidableEq α]
    (l : List (α × β)) (k : α) (h : k ∉ l.map Prod.fst) : alistGet l k = none := by
  induction l with
  | nil => rfl
  | cons p rest ih =>
    have hk : p.1 ≠ k := by
      intro he
      exact h (by simp [he])
    simp [alistGet, hk, ih (fun hm => h (List.mem_cons_of_mem _ hm))]

theorem alistGet_filter_eq_none {α β : Type} [DecidableEq α]
    (p : α × β → Bool) (l : List (α × β)) (k : α) (s : β)
    (hnd : (l.map Prod.fst).Nodup) (hget : alistGet l k = some s)
    (hp : p (k, s) = false) : alistGet (l.filter p) k = none := by
  induction l with
  | nil => simp [alistGet] at hget
  | cons q rest ih =>
    rw [List.map_cons, List.nodup_cons] at hnd
    by_cases hk : q.1 = k
    · have hqs : q.2 = s := by
        simpa [alistGet, hk] using hget
      have hq : q = (k, s) := by
        cases q
        simp_all
      have hout : k ∉ rest.map Prod.fst := hk ▸ hnd.1
      have hnone : alistGet (rest.filter p) k = none := by
        apply alistGet_eq_none_of_not_mem
        intro hmem
        rcases List.mem_map.mp hmem with ⟨e, he, hefst⟩
        exact hout (List.mem_map.mpr ⟨e, List.mem_of_mem_filter he, hefst⟩)
      rw [List.filter_cons, hq, hp]
      simpa using hnone
    · have hget1 : alistGet rest k = some s := by
        simpa [alistGet, hk] using hget
      rw [List.filter_cons]
      by_cases hpq : p q = true
      · simp [hpq, alistGet, hk, ih hnd.2 hget1]
      · simp [hpq, ih hnd.2 hget1]

/-- One `upload_chunk` step on a singleton store with a live,
in-range request. -/
theorem upload_chunk_singleton_step (uid : String) (s : UploadSession)
    (i : Int) (b : Bytes) (hcomp : s.is_complete = false)
    (h0 : 0 ≤ i) (h1 : i < s.total_chunks) :
    upload_chunk [(uid, s)] uid i b =
      ([(uid, { s with chunks := alistPut s.chunks i b
                       chunks_received := s.chunks_received + 1 })],
       .ok { upload_id := uid
             chunks_received := s.chunks_received + 1
             total_chunks := s.total_chunks
             is_complete := decide (((s.chunks_received + 1 : Nat) : Int) = s.total_chunks) }) := by
  simp [upload_chunk, alistGet, alistPut, hcomp, not_lt.mpr h0, not_le.mpr h1]

/-- Applying a list of in-range uploads to a singleton store: every call
succeeds, the chunk map accumulates the writes and `chunks_received`
counts the calls. -/
theorem runUploads_singleton (uid : String) (l : List (Int × Bytes)) :
    ∀ s : UploadSession, s.is_complete = false →
      (∀ p ∈ l, 0 ≤ p.1 ∧ p.1 < s.total_chunks) →
      runUploads [(uid, s)] uid l =
        some [(uid, { s with chunks := l.foldl (fun d p => alistPut d p.1 p.2) s.chunks
                             chunks_received := s.chunks_received + l.length })] := by
  induction l with
  | nil =>
    intro s _ _
    simp [runUploads]
  | cons p rest ih =>
    intro s hcomp hidx
    obtain ⟨h0, h1⟩ := hidx p (List.mem_cons_self p rest)
    rw [runUploads, upload_chunk_singleton_step uid s p.1 p.2 hcomp h0 h1]
    have hrest := ih ({ s with chunks := alistPut s.chunks p.1 p.2
                               chunks_received := s.chunks_received + 1 }) hcomp
      (fun q hq => hidx q (List.mem_cons_of_mem p hq))
    refine hrest.trans ?_
    have harith : s.chunks_received + 1 + rest.length = s.chunks_received + (rest.length + 1) := by
      omega
    simp only [List.foldl_cons, List.length_cons, harith]

theorem alistGet_foldPut_notmem (parts : Nat → Bytes) (rest : List Nat) (i : Nat)
    (hi : i ∉ rest) :
    ∀ d : List (Int × Bytes),
      alistGet (rest.foldl (fun d j => alistPut d (Int.ofNat j) (parts j)) d) (Int.ofNat i) =
        alistGet d (Int.ofNat i) := by
  induction rest with
  | nil =>
    intro d
    rfl
  | cons j t ih =>
    intro d
    have hij : i ≠ j := fun h => hi (h ▸ List.mem_cons_self j t)
    have hji : (Int.ofNat j : Int) ≠ Int.ofNat i := by
      intro h
      exact hij (Int.ofNat.inj h).symm
    rw [List.foldl_cons, ih (fun h => hi (List.mem_cons_of_mem j h)),
      alistGet_alistPut_other _ _ _ _ hji]

theorem alistGet_foldPut_mem (parts : Nat → Bytes) (order : List Nat) (i : Nat)
    (hi : i ∈ order) (hnd : order.Nodup) :
    ∀ d : List (Int × Bytes),
      alistGet (order.foldl (fun d j => alistPut d (Int.ofNat j) (parts j)) d) (Int.ofNat i) =
        some (parts i) := by
  induction order with
  | nil => cases hi
  | cons j t ih =>
    intro d
    rcases List.mem_cons.mp hi with rfl | hmem
    · rw [List.foldl_cons, alistGet_foldPut_notmem parts t i (List.nodup_cons.mp hnd).1,
        alistGet_alistPut_same]
    · rw [List.foldl_cons]
      exact ih hmem (List.nodup_cons.mp hnd).2 _

theorem gatherParts_of_get (s : UploadSession) (f : Nat → Bytes) :
    ∀ l : List Nat, (∀ i ∈ l, alistGet s.chunks (Int.ofNat i) = some (f i)) →
      gatherParts s l = some (l.map f) := by
  intro l
  induction l with
  | nil =>
    intro _
    rfl
  | cons i t ih =>
    intro h
    rw [gatherParts, h i (List.mem_cons_self i t),
      ih (fun j hj => h j (List.mem_cons_of_mem i hj)), List.map_cons]

/-- `finalize_chunked_upload` on a singleton store whose session passes
the completeness check and assembles cleanly. -/
theorem finalize_singleton_ok (uid : String) (s : UploadSession) (bytes : Bytes)
    (hcnt : ((s.chunks_received : Nat) : Int) = s.total_chunks)
    (hasm : assembleChunks { s with is_complete := true } = some bytes) :
    finalize_chunked_upload [(uid, s)] uid = ([], .ok bytes) := by
  have hget : alistGet [(uid, s)] uid = some s := by
    simp [alistGet]
  simp [finalize_chunked_upload, hget, hcnt, hasm, alistRemove]

/-! ## Claim theorems -/

/-- Claim C1 (code_bug evidence): re-sending the same chunk index is not
deduplicated.  On a fresh 2-chunk session, uploading index 0 twice
overwrites the stored part (the chunk map holds the single entry
`(0, [9])`) yet the response reports `chunks_received = 2` and
`is_complete = true`; `finalize_chunked_upload` then passes its own
completeness check and fails with a 500 when the missing index 1 raises
`KeyError` during assembly.  This contradicts the claim that `received`
is deduplicated by index and that a session reports complete only after
`totalChunks` distinct indices have arrived. -/
theorem upload_chunk_duplicate_index_double_counts :
    (let store0 : Uploads := [("u", freshSession ⟨"f.pdf", 2, 8, "application/pdf"⟩ 0)]
     let step1 := upload_chunk store0 "u" 0 [7]
     let step2 := upload_chunk step1.1 "u" 0 [9]
     step2.2 = .ok { upload_id := "u", chunks_received := 2, total_chunks := 2,
                     is_complete := true } ∧
     (alistGet step2.1 "u").map UploadSession.chunks = some [(0, [9])] ∧
     (finalize_chunked_upload step2.1 "u").2 = .error ⟨500, "Error finalizing upload"⟩) := by
  exact ⟨rfl, rfl, rfl⟩

/-- Claim C3: starting from a freshly initiated session with
`total_chunks = N`, uploading parts for the indices `0..N-1` in any
arrival order `order` makes every `upload_chunk` call succeed, and
`finalize_chunked_upload` then succeeds with the concatenation of the
part bytes in strictly increasing index order, independent of the
permutation in which the parts arrived. -/
theorem finalize_concatenates_parts_in_index_order
    (N : Nat) (parts : Nat → Bytes) (order : List Nat)
    (hperm : order.Perm (List.range N))
    (uid : String) (req : UploadInitRequest) (now : Int)
    (htc : req.total_chunks = Int.ofNat N) :
    ∃ store1,
      runUploads [(uid, freshSession req now)] uid
          (order.map (fun i => (Int.ofNat i, parts i))) = some store1 ∧
      (finalize_chunked_upload store1 uid).2 =
        .ok (((List.range N).map parts).flatten) := by
  set s0 := freshSession req now with hs0
  set l := order.map (fun i => (Int.ofNat i, parts i)) with hl
  have hidx : ∀ p ∈ l, 0 ≤ p.1 ∧ p.1 < s0.total_chunks := by
    intro p hp
    rcases List.mem_map.mp hp with ⟨i, hi, rfl⟩
    have hiN : i < N := List.mem_range.mp (hperm.mem_iff.mp hi)
    refine ⟨Int.ofNat_nonneg i, ?_⟩
    show Int.ofNat i < req.total_chunks
    rw [htc]
    exact Int.ofNat_lt.mpr hiN
  have hrun := runUploads_singleton uid l s0 rfl hidx
  set sF : UploadSession :=
    { s0 with chunks := l.foldl (fun d p => alistPut d p.1 p.2) s0.chunks
              chunks_received := s0.chunks_received + l.length } with hsF
  have hlen : l.length = N := by
    rw [hl, List.length_map, hperm.length_eq, List.length_range]
  have hcnt : ((sF.chunks_received : Nat) : Int) = sF.total_chunks := by
    show ((s0.chunks_received + l.length : Nat) : Int) = req.total_chunks
    rw [htc, hlen]
    show ((0 + N : Nat) : Int) = Int.ofNat N
    simp
  have hgetchunks : ∀ i ∈ List.range N, alistGet sF.chunks (Int.ofNat i) = some (parts i) := by
    intro i hi
    show alistGet (l.foldl (fun d p => alistPut d p.1 p.2) s0.chunks) (Int.ofNat i) =
      some (parts i)
    rw [hl, List.foldl_map]
    exact alistGet_foldPut_mem parts order i (hperm.mem_iff.mpr hi)
      (hperm.nodup_iff.mpr (List.nodup_range N)) _
  have htot : ({ sF with is_complete := true } : UploadSession).total_chunks.toNat = N := by
    show req.total_chunks.toNat = N
    rw [htc]
    rfl
  have hassemble : assembleChunks { sF with is_complete := true } =
      some (((List.range N).map parts).flatten) := by
    unfold assembleChunks
    rw [htot,
      gatherParts_of_get { sF with is_complete := true } parts (List.range N) hgetchunks]
    rfl
  refine ⟨[(uid, sF)], hrun, ?_⟩
  rw [finalize_singleton_ok uid sF _ hcnt hassemble]

/-- Witness for C3 at a concrete input: two parts arriving in the order
1, 0. -/
theorem finalize_concatenates_parts_in_index_order_witness :
    ([1, 0].Perm (List.range 2) ∧
      (⟨"f.pdf", 2, 8, "application/pdf"⟩ : UploadInitRequest).total_chunks = Int.ofNat 2) ∧
    ∃ store1,
      runUploads [("u", freshSession ⟨"f.pdf", 2, 8, "application/pdf"⟩ 0)] "u"
          ([1, 0].map (fun i => (Int.ofNat i, (fun j => [j + 5]) i))) = some store1 ∧
      (finalize_chunked_upload store1 "u").2 =
        .ok (((List.range 2).map (fun j => [j + 5])).flatten) :=
  ⟨⟨by decide, rfl⟩,
    finalize_concatenates_parts_in_index_order 2 (fun j => [j + 5]) [1, 0] (by decide)
      "u" ⟨"f.pdf", 2, 8, "application/pdf"⟩ 0 rfl⟩

/-- Claim C5 (counterexample): a session whose `expires_at` is in the
past but which has not yet been reaped is still fully usable: neither
`upload_chunk` nor `finalize_chunked_upload` consults `expires_at`, so
with `now ≥ 0` a session created at `-7200` (expiry `-3600`) accepts a
part and finalizes successfully instead of failing with `NotFound`. -/
theorem expired_session_still_usable_cex :
    (let store0 : Uploads := [("u", freshSession ⟨"f.pdf", 1, 4, "application/pdf"⟩ (-7200))]
     (freshSession ⟨"f.pdf", 1, 4, "application/pdf"⟩ (-7200)).expires_at < 0 ∧
     (upload_chunk store0 "u" 0 [3]).2 =
       .ok { upload_id := "u", chunks_received := 1, total_chunks := 1, is_complete := true } ∧
     (finalize_chunked_upload (upload_chunk store0 "u" 0 [3]).1 "u").2 = .ok [3]) := by
  exact ⟨by decide, rfl, rfl⟩

/-- Claim C5 (amended): the reaper `cleanup_expired_uploads` purges every
session whose `expires_at` lies before `now` (its scratch chunk storage
with it), and once purged, `upload_chunk` and `finalize_chunked_upload`
on that session id fail with 404 NotFound.  Before the purge the expired
session remains usable, because the handlers check only membership in
the session dictionary. -/
theorem reaper_purges_expired_sessions (now : Int) (store : Uploads) (uid : String)
    (s : UploadSession) (idx : Int) (b : Bytes)
    (hnd : (store.map Prod.fst).Nodup)
    (hs : alistGet store uid = some s) (hexp : s.expires_at < now) :
    alistGet (cleanup_expired_uploads now store) uid = none ∧
    (upload_chunk (cleanup_expired_uploads now store) uid idx b).2 =
      .error ⟨404, "Upload session not found or expired"⟩ ∧
    (finalize_chunked_upload (cleanup_expired_uploads now store) uid).2 =
      .error ⟨404, "Upload session not found or expired"⟩ := by
  have h0 : alistGet (cleanup_expired_uploads now store) uid = none := by
    unfold cleanup_expired_uploads
    exact alistGet_filter_eq_none _ store uid s hnd hs (by simp [hexp])
  refine ⟨h0, ?_, ?_⟩
  · simp [upload_chunk, h0]
  · simp [finalize_chunked_upload, h0]

/-- Witness for C5 (amended) at a concrete expired session. -/
theorem reaper_purges_expired_sessions_witness :
    (([("u", freshSession ⟨"f.pdf", 1, 4, "application/pdf"⟩ (-7200))].map
        (Prod.fst (α := String) (β := UploadSession))).Nodup ∧
      alistGet [("u", freshSession ⟨"f.pdf", 1, 4, "application/pdf"⟩ (-7200))] "u" =
        some (freshSession ⟨"f.pdf", 1, 4, "application/pdf"⟩ (-7200)) ∧
      (freshSession ⟨"f.pdf", 1, 4, "application/pdf"⟩ (-7200)).expires_at < 0) ∧
    (alistGet (cleanup_expired_uploads 0
        [("u", freshSession ⟨"f.pdf", 1, 4, "application/pdf"⟩ (-7200))]) "u" = none ∧
     (upload_chunk (cleanup_expired_uploads 0
        [("u", freshSession ⟨"f.pdf", 1, 4, "application/pdf"⟩ (-7200))]) "u" 0 [3]).2 =
       .error ⟨404, "Upload session not found or expired"⟩ ∧
     (finalize_chunked_upload (cleanup_expired_uploads 0
        [("u", freshSession ⟨"f.pdf", 1, 4, "application/pdf"⟩ (-7200))]) "u").2 =
       .error ⟨404, "Upload session not found or expired"⟩) :=
  ⟨⟨by decide, rfl, by decide⟩,
    reaper_purges_expired_sessions 0
      [("u", freshSession ⟨"f.pdf", 1, 4, "application/pdf"⟩ (-7200))] "u"
      (freshSession ⟨"f.pdf", 1, 4, "application/pdf"⟩ (-7200)) 0 [3]
      (by decide) rfl (by decide)⟩

/-- Claim C9 (counterexample): `initiate_chunked_upload` performs no
validation of `total_chunks`: a request with `total_chunks = 0` and the
allowed mime type succeeds and a session is created for it, contradicting
the claim that a zero-chunk upload is rejected. -/
theorem initiate_accepts_zero_chunks_cex :
    (initiate_chunked_upload 0 "u" ⟨"f.pdf", 0, 0, "application/pdf"⟩ []).2 = .ok "u" ∧
    alistGet (initiate_chunked_upload 0 "u" ⟨"f.pdf", 0, 0, "application/pdf"⟩ []).1 "u" =
      some (freshSession ⟨"f.pdf", 0, 0, "application/pdf"⟩ 0) := by
  exact ⟨rfl, rfl⟩

/-- Claim C9 (amended): `initiate_chunked_upload` validates only the mime
type.  Every request with mime type `application/pdf` — whatever its
`total_chunks`, including values below 1 — succeeds and registers a fresh
session carrying the request's `total_chunks` verbatim. -/
theorem initiate_validates_only_mime_type (now : Int) (uid : String)
    (req : UploadInitRequest) (store : Uploads)
    (hmime : req.mime_type = "application/pdf") :
    (initiate_chunked_upload now uid req store).2 = .ok uid ∧
    alistGet (initiate_chunked_upload now uid req store).1 uid =
      some (freshSession req now) := by
  unfold initiate_chunked_upload
  simp [hmime, alistGet_alistPut_same]

/-- Witness for C9 (amended) at the zero-chunk request. -/
theorem initiate_validates_only_mime_type_witness :
    (⟨"f.pdf", 0, 0, "application/pdf"⟩ : UploadInitRequest).mime_type = "application/pdf" ∧
    ((initiate_chunked_upload 5 "u" ⟨"f.pdf", 0, 0, "application/pdf"⟩ []).2 = .ok "u" ∧
     alistGet (initiate_chunked_upload 5 "u" ⟨"f.pdf", 0, 0, "application/pdf"⟩ []).1 "u" =
       some (freshSession ⟨"f.pdf", 0, 0, "application/pdf"⟩ 5)) :=
  ⟨rfl, initiate_validates_only_mime_type 5 "u" ⟨"f.pdf", 0, 0, "application/pdf"⟩ [] rfl⟩

theorem buildDocs_length (file_id original_name gcp_url : String) :
    ∀ (texts : List String) (i : Nat),
      (buildDocs file_id original_name gcp_url i texts).length = texts.length := by
  intro texts
  induction texts with
  | nil =>
    intro i
    rfl
  | cons t rest ih =>
    intro i
    simp [buildDocs, ih]

theorem insertRows_buildDocs (file_id original_name gcp_url : String) (embed : String → Vec) :
    ∀ (texts : List String) (i : Nat),
      insertRows ((buildDocs file_id original_name gcp_url i texts).zip (texts.map embed)) =
        (expectedChunkEvents file_id original_name gcp_url embed i texts,
         expectedChunkIds file_id i texts) := by
  intro texts
  induction texts with
  | nil =>
    intro i
    rfl
  | cons t rest ih =>
    intro i
    rw [buildDocs, List.map_cons, List.zip_cons_cons, insertRows, ih]
    rfl

theorem countChunkInserts_expected (file_id original_name gcp_url : String)
    (embed : String → Vec) :
    ∀ (texts : List String) (i : Nat),
      countChunkInserts (expectedChunkEvents file_id original_name gcp_url embed i texts) =
        texts.length := by
  intro texts
  induction texts with
  | nil =>
    intro i
    rfl
  | cons t rest ih =>
    intro i
    simp [expectedChunkEvents, countChunkInserts, ih]

/-- Claim C4 (counterexample): a PDF with zero readable pages (the loader
raises, so `process_pdf` returns the empty chunk list) does not make the
ingest fail: `process_document` still uploads the blob, still persists
the metadata row, persists zero chunks, and reports success with
`total_chunks = 0` — contradicting the claim that such an ingest fails
with an `ExtractionFailed` stage failure before any blob upload or
metadata write. -/
theorem zero_pages_ingest_succeeds_cex :
    process_pdf 20 (fun l => l) false none = [] ∧
    (process_document 20 (fun l => l) false none (fun t => [(t.length : Int)]) "signed-url"
        "fid-7" [9, 9] "Zero Pages" "z.pdf").1 =
      [.blobUpload "z.pdf" 2, .fileMetadata "Zero Pages" "signed-url"] ∧
    (process_document 20 (fun l => l) false none (fun t => [(t.length : Int)]) "signed-url"
        "fid-7" [9, 9] "Zero Pages" "z.pdf").2 =
      .ok { file_url := "signed-url", file_id := "fid-7", total_chunks := 0 } := by
  exact ⟨rfl, rfl, rfl⟩

/-- Claim C4 (amended): when extraction and chunking yield zero readable
pages, `process_pdf` returns the empty list rather than raising, and the
ingest proceeds: the blob upload and the metadata row still occur, zero
chunks are persisted, and the ingest reports success with
`total_chunks = 0`. -/
theorem zero_pages_ingest_nonfatal (text_threshold : Nat) (split : List String → List String)
    (fitzOk : Bool) (load : Option (List PdfPage)) (embed : String → Vec)
    (gcp_url file_id : String) (file_content : Bytes) (original_name filename : String)
    (h : process_pdf text_threshold split fitzOk load = []) :
    process_document text_threshold split fitzOk load embed gcp_url file_id file_content
        original_name filename =
      ([.blobUpload filename file_content.length, .fileMetadata original_name gcp_url],
       .ok { file_url := gcp_url, file_id := file_id, total_chunks := 0 }) := by
  simp only [process_document, h]
  rfl

/-- Witness for C4 (amended) at a concrete unreadable input. -/
theorem zero_pages_ingest_nonfatal_witness :
    process_pdf 20 (fun l => l) true none = [] ∧
    process_document 20 (fun l => l) true none (fun _ => [0]) "https://blob/url" "file-1"
        [1, 2, 3] "My Title" "doc.pdf" =
      ([.blobUpload "doc.pdf" 3, .fileMetadata "My Title" "https://blob/url"],
       .ok { file_url := "https://blob/url", file_id := "file-1", total_chunks := 0 }) :=
  ⟨rfl, zero_pages_ingest_nonfatal 20 (fun l => l) true none (fun _ => [0]) "https://blob/url"
      "file-1" [1, 2, 3] "My Title" "doc.pdf" rfl⟩

/-- Claim C6: on a successful ingest the event trace is exactly the blob
upload, then the metadata row insert, then one chunk insert per produced
chunk — so the metadata row precedes every chunk row — with chunk `i`
stamped with the document's `file_id`, the 0-based position `i`, its own
embedding vector and the blob url; the number of chunk inserts equals
the number of chunks produced by extraction and splitting, and
`add_documents` aborts with an error, inserting nothing, when the
document and embedding counts mismatch. -/
theorem ingest_persists_metadata_then_stamped_chunks
    (text_threshold : Nat) (split : List String → List String) (fitzOk : Bool)
    (load : Option (List PdfPage)) (embed : String → Vec) (gcp_url file_id : String)
    (file_content : Bytes) (original_name filename : String) :
    process_document text_threshold split fitzOk load embed gcp_url file_id file_content
        original_name filename =
      (.blobUpload filename file_content.length :: .fileMetadata original_name gcp_url ::
          expectedChunkEvents file_id original_name gcp_url embed 0
            (process_pdf text_threshold split fitzOk load),
       .ok { file_url := gcp_url, file_id := file_id,
             total_chunks := (process_pdf text_threshold split fitzOk load).length }) ∧
    countChunkInserts
        (expectedChunkEvents file_id original_name gcp_url embed 0
          (process_pdf text_threshold split fitzOk load)) =
      (process_pdf text_threshold split fitzOk load).length ∧
    (∀ (docs : List Doc) (embs : List Vec), docs.length ≠ embs.length →
      add_documents docs embs =
        ([], .error "Mismatch between documents and provided embeddings count.")) := by
  refine ⟨?_, countChunkInserts_expected file_id original_name gcp_url embed _ 0, ?_⟩
  · set texts := process_pdf text_threshold split fitzOk load with htexts
    have hlen := buildDocs_length file_id original_name gcp_url texts 0
    have hemb : (texts.map embed).length = texts.length := List.length_map texts embed
    have hadd : add_documents (buildDocs file_id original_name gcp_url 0 texts)
        (texts.map embed) =
        (expectedChunkEvents file_id original_name gcp_url embed 0 texts,
         .ok (expectedChunkIds file_id 0 texts)) := by
      unfold add_documents
      rw [if_pos (by rw [hlen, hemb]), insertRows_buildDocs]
    simp only [process_document, ← htexts]
    rw [if_pos hlen.symm, hadd]
    rfl
  · intro docs embs hne
    unfold add_documents
    rw [if_neg hne]

/-- Witness for C6: the mismatch conjunct applied to a concrete
mismatched pair. -/
theorem ingest_persists_metadata_then_stamped_chunks_witness :
    (([] : List Doc).length ≠ ([[1]] : List Vec).length) ∧
    add_documents [] [[1]] =
      ([], .error "Mismatch between documents and provided embeddings count.") :=
  ⟨by decide,
    (ingest_persists_metadata_then_stamped_chunks 20 (fun l => l) true none
      (fun _ => []) "u" "f" [] "t" "t.pdf").2.2 [] [[1]] (by decide)⟩

/-- Claim C8: per page, OCR is attempted at most once, and not at all
when the stripped native text reaches the density threshold; the final
page text is either the native text or a non-empty OCR output (a
non-empty native extraction is never degraded to empty); an OCR
exception (modelled by `ocrResult = none`) is absorbed, leaving the
native text; and a page failing both methods yields the empty string
rather than an error. -/
theorem ocr_fallback_policy (text_threshold : Nat) (fa : Bool) (p : PdfPage) :
    (processPage text_threshold fa p).2 ≤ 1 ∧
    (text_threshold ≤ (stripStr p.native).length → (processPage text_threshold fa p).2 = 0) ∧
    ((processPage text_threshold fa p).1 = p.native ∨
      ∃ t, p.ocrResult = some t ∧ stripStr t ≠ "" ∧ (processPage text_threshold fa p).1 = t) ∧
    (p.ocrResult = none → (processPage text_threshold fa p).1 = p.native) ∧
    (p.native = "" → p.ocrResult = none ∨ p.ocrResult = some "" →
      (processPage text_threshold fa p).1 = "") := by
  obtain ⟨native, ocrRes⟩ := p
  by_cases h1 : (stripStr native).length < text_threshold
  · by_cases h2 : fa = true
    · cases ocrRes with
      | none =>
        have hp : processPage text_threshold fa ⟨native, none⟩ = (native, 1) := by
          have hstrip : stripStr "" = "" := rfl
          simp [processPage, extract_text_with_ocr, h1, h2, hstrip]
        rw [hp]
        exact ⟨Nat.le_refl 1, fun h => absurd h1 (not_lt.mpr h), Or.inl rfl, fun _ => rfl,
          fun h _ => h⟩
      | some t =>
        by_cases h3 : stripStr t = ""
        · have hp : processPage text_threshold fa ⟨native, some t⟩ = (native, 1) := by
            simp [processPage, extract_text_with_ocr, h1, h2, h3]
          rw [hp]
          exact ⟨Nat.le_refl 1, fun h => absurd h1 (not_lt.mpr h), Or.inl rfl,
            fun h => Option.noConfusion h, fun h _ => h⟩
        · have hp : processPage text_threshold fa ⟨native, some t⟩ = (t, 1) := by
            simp [processPage, extract_text_with_ocr, h1, h2, h3]
          rw [hp]
          refine ⟨Nat.le_refl 1, fun h => absurd h1 (not_lt.mpr h),
            Or.inr ⟨t, rfl, h3, rfl⟩, fun h => Option.noConfusion h, fun _ hd => ?_⟩
          rcases hd with hn | hs
          · exact Option.noConfusion hn
          · cases Option.some.inj hs
            rfl
    · have hp : processPage text_threshold fa ⟨native, ocrRes⟩ = (native, 0) := by
        simp [processPage, h2]
      rw [hp]
      exact ⟨Nat.zero_le 1, fun _ => rfl, Or.inl rfl, fun _ => rfl, fun h _ => h⟩
  · have hp : processPage text_threshold fa ⟨native, ocrRes⟩ = (native, 0) := by
      simp [processPage, h1]
    rw [hp]
    exact ⟨Nat.zero_le 1, fun _ => rfl, Or.inl rfl, fun _ => rfl, fun h _ => h⟩

/-- Witness for C8: a dense page (26 characters of native text) gets no
OCR attempt and keeps its native text. -/
theorem ocr_fallback_policy_witness :
    (20 ≤ (stripStr "abcdefghijklmnopqrstuvwxyz").length ∧
      (⟨"abcdefghijklmnopqrstuvwxyz", none⟩ : PdfPage).ocrResult = none) ∧
    ((processPage 20 true ⟨"abcdefghijklmnopqrstuvwxyz", none⟩).2 = 0 ∧
     (processPage 20 true ⟨"abcdefghijklmnopqrstuvwxyz", none⟩).1 =
       "abcdefghijklmnopqrstuvwxyz") :=
  ⟨⟨by decide, rfl⟩,
    ⟨(ocr_fallback_policy 20 true ⟨"abcdefghijklmnopqrstuvwxyz", none⟩).2.1 (by decide),
     (ocr_fallback_policy 20 true ⟨"abcdefghijklmnopqrstuvwxyz", none⟩).2.2.2.1 rfl⟩⟩

/-- Claim C2 (counterexample): with one prior turn in memory and a
question generator whose rewrite retrieves a different result set, the
sources returned by `query` are those of the original pronoun question,
not of the rewritten standalone question — the hybrid search runs with
the original question and its embedding before the rewrite, so the
claim that retrieval uses the rewritten question fails. -/
theorem query_retrieves_with_original_question_cex :
    c2Env.question_generator "What is it?" c2Memory = "What is a transformer?" ∧
    c2Env.hybrid "What is a transformer?" (c2Env.embed_query "What is a transformer?") "" =
      [{ id := "standalone-hit", content := "transformer chunk" }] ∧
    (query c2Env { mode := .student, memory := c2Memory } "What is it?" "" none).2.source_documents =
      [{ id := "pronoun-hit", content := "pronoun chunk" }] ∧
    (query c2Env { mode := .student, memory := c2Memory } "What is it?" "" none).2.answer =
      "What is a transformer?" := by
  exact ⟨rfl, by decide, by decide, by decide⟩

/-- Claim C2 (amended): the hybrid retrieval is always performed with the
original question and its embedding, before any rewrite; when the
(possibly mode-cleared) memory holds prior turns, the question is
rewritten into a standalone question conditioned on those turns, but the
rewritten question feeds only the answer generation. -/
theorem query_retrieval_uses_original_question (env : RagEnv) (s : RagState)
    (question file_title : String) (modeArg : Option PromptMode) :
    (query env s question file_title modeArg).2.source_documents =
      (if (env.hybrid question (env.embed_query question) file_title).isEmpty then []
       else env.hybrid question (env.embed_query question) file_title) ∧
    (query env s question file_title modeArg).2.answer =
      (let s1 := match modeArg with
                 | some m => if m = s.mode then s else set_mode m s
                 | none => s
       if (env.hybrid question (env.embed_query question) file_title).isEmpty then
         notFoundAnswer
       else
         env.combine_docs s1.mode
           (if s1.memory.isEmpty then question
            else env.question_generator question s1.memory)
           s1.memory (env.hybrid question (env.embed_query question) file_title)) := by
  rcases modeArg with _ | m
  · by_cases hres : (env.hybrid question (env.embed_query question) file_title).isEmpty <;>
      simp [query, hres]
  · by_cases hm : m = s.mode <;>
      by_cases hres : (env.hybrid question (env.embed_query question) file_title).isEmpty <;>
        simp [query, hm, hres, set_mode]

/-- Claim C10: a `query` call with a mode argument different from the
current mode leaves the conversation memory empty on return — the
temporary switch clears memory and the revert in the `finally` block
clears it again, discarding the turn saved during the call — so a
subsequent `getHistory` returns zero turns. -/
theorem temporary_mode_query_clears_memory (env : RagEnv) (s : RagState)
    (question file_title : String) (m : PromptMode) (hm : m ≠ s.mode) :
    (query env s question file_title (some m)).1.memory = [] ∧
    getHistory (query env s question file_title (some m)).1 = [] := by
  by_cases hres : (env.hybrid question (env.embed_query question) file_title).isEmpty <;>
    simp [query, hm, hres, set_mode, getHistory]

/-- Witness for C10: a professor-mode query on a student-mode chain with
two messages in memory returns with empty memory and empty history. -/
theorem temporary_mode_query_clears_memory_witness :
    (PromptMode.professor ≠ (RagState.mk .student [.human "hi", .ai "hello"]).mode) ∧
    ((query plainEnv (RagState.mk .student [.human "hi", .ai "hello"]) "q" ""
        (some .professor)).1.memory = [] ∧
     getHistory (query plainEnv (RagState.mk .student [.human "hi", .ai "hello"]) "q" ""
        (some .professor)).1 = []) :=
  ⟨by decide,
    temporary_mode_query_clears_memory plainEnv (RagState.mk .student [.human "hi", .ai "hello"])
      "q" "" .professor (by decide)⟩

theorem mem_insertDesc (score : String → ℚ) (x a : String) :
    ∀ l : List String, a ∈ insertDesc score x l ↔ a = x ∨ a ∈ l := by
  intro l
  induction l with
  | nil => simp [insertDesc]
  | cons y rest ih =>
    by_cases h : score x < score y
    · rw [insertDesc, if_pos h]
      simp only [List.mem_cons, ih]
      tauto
    · rw [insertDesc, if_neg h]
      simp only [List.mem_cons]

theorem sorted_insertDesc (score : String → ℚ) (x : String) :
    ∀ l : List String, l.Sorted (fun a b => score b ≤ score a) →
      (insertDesc score x l).Sorted (fun a b => score b ≤ score a) := by
  intro l
  induction l with
  | nil =>
    intro _
    simp [insertDesc]
  | cons y rest ih =>
    intro hs
    rw [List.sorted_cons] at hs
    by_cases h : score x < score y
    · rw [insertDesc, if_pos h, List.sorted_cons]
      refine ⟨?_, ih hs.2⟩
      intro b hb
      rcases (mem_insertDesc score x b rest).mp hb with rfl | hbr
      · exact le_of_lt h
      · exact hs.1 b hbr
    · rw [insertDesc, if_neg h, List.sorted_cons]
      refine ⟨?_, List.sorted_cons.mpr hs⟩
      intro b hb
      rcases List.mem_cons.mp hb with rfl | hbr
      · exact not_lt.mp h
      · exact le_trans (hs.1 b hbr) (not_lt.mp h)

theorem sorted_sortDesc (score : String → ℚ) :
    ∀ l : List String, (sortDesc score l).Sorted (fun a b => score b ≤ score a) := by
  intro l
  induction l with
  | nil => simp [sortDesc]
  | cons x rest ih => exact sorted_insertDesc score x _ ih

/-- Claim C7 (spec-modelled: the `hybrid_search` ranking procedure is a
server-side Supabase RPC absent from the repository): a result at
1-based rank `r` of a ranked list contributes `weight / (rrfK + r)`,
absence contributes zero, the fused output is sorted by descending total
score, and on the spec's concrete example — lexical `[A, B]`, semantic
`[B, C]`, weights 1/1, `rrfK = 50` — the scores are `1/51`,
`1/52 + 1/51`, `1/52` and the fused order is `B, A, C`; an equal-score
tie keeps the stable original order. -/
theorem rrf_fusion_spec :
    (∀ (w : ℚ) (k : Nat) (ranked : List String) (x : String) (r : Nat),
        rankOf ranked x = some r → rrfContribution w k ranked x = w / ((k : ℚ) + (r : ℚ))) ∧
    (∀ (w : ℚ) (k : Nat) (ranked : List String) (x : String),
        rankOf ranked x = none → rrfContribution w k ranked x = 0) ∧
    (∀ (wF wS : ℚ) (k : Nat) (lex sem l : List String),
        (sortDesc (rrfScore wF wS k lex sem) l).Sorted
          (fun a b => rrfScore wF wS k lex sem b ≤ rrfScore wF wS k lex sem a)) ∧
    (rrfScore 1 1 50 ["A", "B"] ["B", "C"] "A" = 1 / 51 ∧
     rrfScore 1 1 50 ["A", "B"] ["B", "C"] "B" = 1 / 52 + 1 / 51 ∧
     rrfScore 1 1 50 ["A", "B"] ["B", "C"] "C" = 1 / 52 ∧
     hybrid_fuse 1 1 50 10 ["A", "B"] ["B", "C"] = ["B", "A", "C"]) ∧
    hybrid_fuse 1 1 50 10 ["A"] ["B"] = ["A", "B"] := by
  have rA1 : rankOf ["A", "B"] "A" = some 1 := rfl
  have rA2 : rankOf ["B", "C"] "A" = none := rfl
  have rB1 : rankOf ["A", "B"] "B" = some 2 := rfl
  have rB2 : rankOf ["B", "C"] "B" = some 1 := rfl
  have rC1 : rankOf ["A", "B"] "C" = none := rfl
  have rC2 : rankOf ["B", "C"] "C" = some 2 := rfl
  have sA1 : rankOf ["A"] "A" = some 1 := rfl
  have sA2 : rankOf ["B"] "A" = none := rfl
  have sB1 : rankOf ["A"] "B" = none := rfl
  have sB2 : rankOf ["B"] "B" = some 1 := rfl
  refine ⟨?_, ?_, ?_,
    ⟨by norm_num [rrfScore, rrfContribution, rA1, rA2],
     by norm_num [rrfScore, rrfContribution, rB1, rB2],
     by norm_num [rrfScore, rrfContribution, rC1, rC2],
     by norm_num [hybrid_fuse, dedupKeepFirst, dedupKeepFirstAux, sortDesc, insertDesc,
        rrfScore, rrfContribution, rA1, rA2, rB1, rB2, rC1, rC2]⟩,
    by norm_num [hybrid_fuse, dedupKeepFirst, dedupKeepFirstAux, sortDesc, insertDesc,
        rrfScore, rrfContribution, sA1, sA2, sB1, sB2]⟩
  · intro w k ranked x r h
    simp [rrfContribution, h]
  · intro w k ranked x h
    simp [rrfContribution, h]
  · intro wF wS k lex sem l
    exact sorted_sortDesc _ l

/-- Witness for C7 at concrete ranked lists. -/
theorem rrf_fusion_spec_witness :
    (rankOf ["A", "B"] "B" = some 2 ∧ rankOf ["A", "B"] "Z" = none) ∧
    (rrfContribution 1 50 ["A", "B"] "B" = 1 / ((50 : ℚ) + (2 : ℚ)) ∧
     rrfContribution 1 50 ["A", "B"] "Z" = 0) :=
  ⟨⟨rfl, rfl⟩,
    ⟨rrf_fusion_spec.1 1 50 ["A", "B"] "B" 2 rfl,
     rrf_fusion_spec.2.1 1 50 ["A", "B"] "Z" rfl⟩⟩

end Uncover
